import Mathlib

/-!
Verification development for the env-crypto repository.

The repository encrypts a plaintext `.env` key-value file into a JSON
container (`encryptEnvFile`) and decrypts it back into a key-value mapping
(`decryptEnvFile`), with a path validator (`validatePath`) constraining all
file paths to the current working directory.

The embedding below models:
  * the POSIX path semantics of Node's `path.resolve` / `path.relative` /
    `path.isAbsolute` used by `validatePath` (pure functions over `List Char`);
  * the JSON container serialization written by encrypt and the subset of
    `JSON.parse` behaviour decrypt relies on (flat objects with string
    fields; any other text fails to parse, modelling the `SyntaxError`
    thrown by `JSON.parse` on a malformed container);
  * the embedded key-value line parser of `decryptEnvFile`
    (the regex `^\s*([\w.-]+)\s*=\s*(.*)?\s*$` plus quote stripping);
  * the Node `crypto` primitives `scryptSync` and AES-256-GCM, which are
    not part of this repository's sources and are therefore modelled from
    the spec as idealized primitives: the key derivation is deterministic
    and collision-free in (passphrase, salt), and the AEAD decrypts
    successfully exactly the (key, iv, ciphertext, tag) tuples produced by
    encryption, rejecting everything else — the spec's stated guarantees;
  * the filesystem, the process environment and the buffer-zeroing
    discipline: both file operations are modelled as pure functions of an
    explicit `World` (env table, file store, cwd) and of the random bytes
    drawn for salt/iv, returning the final file store, an event trace
    (file reads, key derivation, file writes) and the final contents of
    the key-material buffers at the moment the call returns (mirroring the
    `try`/`finally` blocks of the source).

Strings are modelled byte-transparently (one code point = one byte), which
is faithful for single-byte (Latin-1/ASCII) text; theorems that travel
through the hex encoding carry the corresponding `< 256` bounds.
-/

namespace EnvCrypto

/-- Byte sequences: machine bytes are `Nat`s, with explicit `< 256` bounds
where the hex encoding matters. -/
abbrev Bytes := List Nat

/-- The double-quote character, written via its code point. -/
def dquote : Char := Char.ofNat 34

/-- The single-quote character, written via its code point. -/
def squote : Char := Char.ofNat 39

/-- Decidable equality for `Except`, needed to evaluate call outcomes on
concrete inputs. -/
instance exceptDecEq {ε α : Type} [DecidableEq ε] [DecidableEq α] :
    DecidableEq (Except ε α) := fun a b =>
  match a, b with
  | .error e, .error e' =>
    if h : e = e' then .isTrue (by rw [h]) else .isFalse (by simp [h])
  | .ok x, .ok y =>
    if h : x = y then .isTrue (by rw [h]) else .isFalse (by simp [h])
  | .error _, .ok _ => .isFalse (by simp)
  | .ok _, .error _ => .isFalse (by simp)

/-- Errors a call can surface: `envCryptoError` models the repository's
typed `EnvCryptoError` class (message + `code` tag); the remaining
constructors model raw untyped exceptions escaping from Node builtins
(`JSON.parse` syntax failures, GCM authentication failures, filesystem
errors). -/
inductive Thrown where
  | envCryptoError (message : String) (code : String)
  | jsonParseError
  | authError
  | fsReadError (path : String)
deriving DecidableEq

/-- Events recorded by the effectful model, used to express ordering facts
such as "the source file is read before the output path is validated". -/
inductive Event where
  | readFile (p : String)
  | deriveKey
  | writeFile (p : String)
deriving DecidableEq

/-! ## POSIX path model (Node `path` on posix, as used by `validatePath`) -/

/-- Split a character list on a separator character (like
`String.prototype.split` with a single-char separator). -/
def splitOnChar (sep : Char) : List Char → List (List Char)
  | [] => [[]]
  | c :: rest =>
    match splitOnChar sep rest with
    | [] => [[]]
    | s :: ss => if c = sep then [] :: s :: ss else (c :: s) :: ss

/-- One step of posix path normalization over a reversed segment stack:
empty and `.` segments are dropped, `..` pops (and is dropped at the
root, as for absolute paths), anything else is pushed. -/
def normStep (stack : List (List Char)) (seg : List Char) : List (List Char) :=
  if seg = [] ∨ seg = ['.'] then stack
  else if seg = ['.', '.'] then stack.tail
  else seg :: stack

/-- Normalize a segment list of an absolute path. -/
def normSegs (segs : List (List Char)) : List (List Char) :=
  (segs.foldl normStep []).reverse

/-- Join normalized segments back into an absolute path string. -/
def joinAbs (segs : List (List Char)) : List Char :=
  '/' :: List.intercalate ['/'] segs

/-- Whether a path string is posix-absolute (`path.isAbsolute`). -/
def isAbsStr (p : List Char) : Bool := p.head? = some '/'

/-- Posix `path.resolve` applied to a single absolute path: pure
normalization. -/
def resolve1 (p : List Char) : List Char :=
  joinAbs (normSegs (splitOnChar '/' p))

/-- Posix `path.resolve(cwd, p)`: an absolute `p` is normalized alone, a
relative `p` is appended to the (absolute) `cwd` and normalized. -/
def resolveP (cwd p : List Char) : List Char :=
  if isAbsStr p then resolve1 p else resolve1 (cwd ++ '/' :: p)

/-- Segments of an already-resolved absolute path. -/
def segsOf (resolved : List Char) : List (List Char) :=
  (splitOnChar '/' resolved).filter (· ≠ [])

/-- Length of the longest common prefix of two segment lists. -/
def commonLen : List (List Char) → List (List Char) → Nat
  | a :: as, b :: bs => if a = b then commonLen as bs + 1 else 0
  | _, _ => 0

/-- Posix `path.relative(fromP, toP)` for resolved absolute inputs: walk up
with `..` for each non-shared `fromP` segment, then down the remaining
`toP` segments. -/
def relativeP (fromP toP : List Char) : List Char :=
  let f := segsOf fromP
  let t := segsOf toP
  let n := commonLen f t
  List.intercalate ['/'] (List.replicate (f.length - n) ['.', '.'] ++ t.drop n)

/-- The `EnvCryptoError` thrown by `validatePath`. -/
def invalidPathErr : Thrown :=
  .envCryptoError "Invalid file path: outside working directory" "INVALID_PATH"

/-- Model of the source's `validatePath`: resolve the input against the
cwd, and reject when the cwd-relative form starts with the two characters
`..`, or when the input is absolute and the resolved path does not start
with `cwd + '/'` as a string. -/
def validatePath (cwd filePath : String) : Except Thrown String :=
  let resolved := resolveP cwd.data filePath.data
  let cwdR := resolve1 cwd.data
  let rel := relativeP cwdR resolved
  if ['.', '.'].isPrefixOf rel ∨ (isAbsStr filePath.data ∧ ¬ (cwdR ++ ['/']).isPrefixOf resolved) then
    .error invalidPathErr
  else
    .ok (String.mk resolved)

/-! ## Idealized crypto primitives (Node `crypto`, not in src/) -/

/-- Injective, parseable length marker used by the idealized primitives. -/
def lenEnc (n : Nat) : Bytes := List.replicate n 1 ++ [0]

/-- Byte-transparent string encoding (one code point = one byte). -/
def strBytes (s : String) : Bytes := s.data.map Char.toNat

/-- Inverse of `strBytes` on byte sequences coming from strings. -/
def bytesStr (bs : Bytes) : String := String.mk (bs.map Char.ofNat)

/-- Modelled from the spec: Node's `scryptSync(pass, salt, 32)` is not in
src/. The spec requires a deterministic derivation, reproducible from the
same passphrase and salt, and collision-free for the integrity arguments;
the model realizes this with an injective encoding of (passphrase, salt). -/
def scryptModel (pass : String) (salt : Bytes) : Bytes :=
  lenEnc (strBytes pass).length ++ (strBytes pass ++ salt)

/-- Header binding an (idealized) AEAD output to its key and nonce. -/
def encPrefix (key iv : Bytes) : Bytes :=
  lenEnc key.length ++ (key ++ (lenEnc iv.length ++ iv))

/-- Modelled from the spec: the AES-256-GCM ciphertext. Fresh keys or
nonces yield fresh ciphertexts, and the plaintext is recoverable under the
same key and nonce, as the spec's guarantees require. -/
def gcmCiphertext (key iv pt : Bytes) : Bytes := encPrefix key iv ++ pt

/-- Modelled from the spec: the 16-byte GCM authentication tag, idealized
as collision-free in (key, nonce, ciphertext) so that the tag check
"must reject any modified ciphertext or tag deterministically". -/
def gcmTag (key iv ct : Bytes) : Bytes := encPrefix key iv ++ ct

/-- Modelled from the spec: authenticated encryption
(`createCipheriv('aes-256-gcm', …)` + `update`/`final`/`getAuthTag`). -/
def gcmEncrypt (key iv pt : Bytes) : Bytes × Bytes :=
  (gcmCiphertext key iv pt, gcmTag key iv (gcmCiphertext key iv pt))

/-- Modelled from the spec: authenticated decryption
(`createDecipheriv` + `setAuthTag` + `update`/`final`); returns `none`
(the thrown authentication error) unless the tag verifies for exactly
this (key, nonce, ciphertext). -/
def gcmDecrypt (key iv ct tag : Bytes) : Option Bytes :=
  if gcmTag key iv ct = tag then
    if (encPrefix key iv).isPrefixOf ct then
      some (ct.drop (encPrefix key iv).length)
    else none
  else none

/-! ## Hex encoding (`Buffer.prototype.toString('hex')` / `Buffer.from(s, 'hex')`) -/

/-- Lowercase hex digit for a value below 16. -/
def hexDigitChar (n : Nat) : Char :=
  if n < 10 then Char.ofNat (48 + n) else Char.ofNat (87 + n)

/-- Hex characters of a byte sequence, two digits per byte. -/
def hexEncodeChars (bs : Bytes) : List Char :=
  bs.foldr (fun b acc => hexDigitChar (b / 16) :: hexDigitChar (b % 16) :: acc) []

/-- Lowercase hex string of a byte sequence (`buf.toString('hex')`). -/
def hexEncode (bs : Bytes) : String := String.mk (hexEncodeChars bs)

/-- Value of a hex digit character, `none` for non-hex characters. -/
def hexVal (c : Char) : Option Nat :=
  if 48 ≤ c.toNat ∧ c.toNat ≤ 57 then some (c.toNat - 48)
  else if 97 ≤ c.toNat ∧ c.toNat ≤ 102 then some (c.toNat - 87)
  else if 65 ≤ c.toNat ∧ c.toNat ≤ 70 then some (c.toNat - 55)
  else none

/-- Hex decoding with Node's truncating behaviour: `Buffer.from(s, 'hex')`
stops at the first invalid digit pair or odd trailing digit. -/
def hexDecodeChars : List Char → Bytes
  | c1 :: c2 :: rest =>
    match hexVal c1, hexVal c2 with
    | some h, some l => (16 * h + l) :: hexDecodeChars rest
    | _, _ => []
  | _ => []

/-- Hex decoding of a string. -/
def hexDecode (s : String) : Bytes := hexDecodeChars s.data

/-! ## Container serialization and the JSON subset parsed by decrypt -/

/-- The persisted encrypted container (JSON fields, binary ones hex-encoded
at serialization time). -/
structure Container where
  version : String
  salt : Bytes
  iv : Bytes
  content : Bytes
  authTag : Bytes
deriving DecidableEq

/-- Characters treated as insignificant whitespace by `JSON.parse`. -/
def isJsonWs (c : Char) : Bool := c = ' ' || c = '\t' || c = '\n' || c = '\r'

/-- Parse a JSON string body after its opening quote: the content up to the
closing quote plus the remaining input. The model covers escape-free
strings, which is all the container format produces. -/
def parseJString : List Char → Option (List Char × List Char)
  | [] => none
  | c :: rest =>
    if c = dquote then some ([], rest)
    else if c = '\\' then none
    else
      match parseJString rest with
      | some (s, r) => some (c :: s, r)
      | none => none

/-- Parse the members of a flat JSON object with string values, consuming
the closing brace; fuel bounds the recursion by the member count. -/
def parseMembers : Nat → List Char → Option (List (String × String) × List Char)
  | 0, _ => none
  | fuel + 1, cs =>
    match cs.dropWhile isJsonWs with
    | [] => none
    | c :: cs1 =>
      if c = dquote then
        match parseJString cs1 with
        | none => none
        | some (k, cs2) =>
          match cs2.dropWhile isJsonWs with
          | [] => none
          | d :: cs4 =>
            if d = ':' then
              match cs4.dropWhile isJsonWs with
              | [] => none
              | q :: cs6 =>
                if q = dquote then
                  match parseJString cs6 with
                  | none => none
                  | some (v, cs7) =>
                    match cs7.dropWhile isJsonWs with
                    | [] => none
                    | e :: cs9 =>
                      if e = ',' then
                        match parseMembers fuel cs9 with
                        | some (ms, r) => some ((String.mk k, String.mk v) :: ms, r)
                        | none => none
                      else if e = '}' then some ([(String.mk k, String.mk v)], cs9)
                      else none
                else none
            else none
      else none

/-- Model of `JSON.parse` restricted to the container format: a flat object
with string keys and string values. Any other text — in particular
anything that is not JSON at all — yields `none`, modelling the
`SyntaxError` the real `JSON.parse` raises on a malformed container. -/
def jsonParse (s : String) : Option (List (String × String)) :=
  match s.data.dropWhile isJsonWs with
  | [] => none
  | c :: cs1 =>
    if c = '{' then
      match cs1.dropWhile isJsonWs with
      | [] => none
      | d :: ds =>
        if d = '}' then
          if ds.dropWhile isJsonWs = [] then some [] else none
        else
          match parseMembers (cs1.length + 1) cs1 with
          | none => none
          | some (ms, r) => if r.dropWhile isJsonWs = [] then some ms else none
    else none

/-- Field access on a parsed JSON object: later duplicate keys win, a
missing key reads as the empty string — exactly what the source's
truthiness test `!encryptedData.field` observes. -/
def jGet (obj : List (String × String)) (k : String) : Option String :=
  obj.reverse.lookup k

/-- Defaulted field access (missing field ↦ `""`). -/
def jGetD (obj : List (String × String)) (k : String) : String :=
  (jGet obj k).getD ""

/-- Characters of one serialized JSON member `"k":"v"`. -/
def jfield (k v : List Char) : List Char :=
  dquote :: (k ++ dquote :: ':' :: dquote :: (v ++ [dquote]))

/-- Characters of a comma-separated list of serialized members. -/
def jfieldsChars : List (String × String) → List Char
  | [] => []
  | [kv] => jfield kv.1.data kv.2.data
  | kv :: rest => jfield kv.1.data kv.2.data ++ ',' :: jfieldsChars rest

/-- The container's fields in the order `JSON.stringify` emits them in the
source (`version`, `salt`, `iv`, `content`, `authTag`). -/
def containerFields (c : Container) : List (String × String) :=
  [("version", c.version), ("salt", hexEncode c.salt), ("iv", hexEncode c.iv),
   ("content", hexEncode c.content), ("authTag", hexEncode c.authTag)]

/-- The exact text `JSON.stringify` produces for the container object. -/
def serializeContainer (c : Container) : String :=
  String.mk ('{' :: jfieldsChars (containerFields c) ++ ['}'])

/-! ## The embedded key-value line parser of `decryptEnvFile` -/

/-- The character class `[\w.-]` of the source regex. -/
def isWordChar (c : Char) : Bool :=
  c.isAlphanum || c = '_' || c = '.' || c = '-'

/-- ASCII whitespace matched by the regex's `\s` on env-file lines
(newlines cannot occur: the text was already split on them). -/
def isJsSpace (c : Char) : Bool :=
  c = ' ' || c = '\t' || c = '\r' || c = Char.ofNat 11 || c = Char.ofNat 12

/-- Model of the line regex `^\s*([\w.-]+)\s*=\s*(.*)?\s*$`: optional
leading whitespace, a non-empty identifier key, optional whitespace, `=`,
optional whitespace, then the raw remainder (the greedy `(.*)` keeps any
trailing whitespace in the value). -/
def matchEnvLine (line : List Char) : Option (String × String) :=
  let afterWs := line.dropWhile isJsSpace
  let key := afterWs.takeWhile isWordChar
  let afterKey := afterWs.dropWhile isWordChar
  if key = [] then none
  else
    match afterKey.dropWhile isJsSpace with
    | [] => none
    | c :: rest =>
      if c = '=' then some (String.mk key, String.mk (rest.dropWhile isJsSpace))
      else none

/-- Strip one matching outer pair of double or single quotes when the
value has length above one and both ends carry the same quote character. -/
def stripQuotes (v : String) : String :=
  let cs := v.data
  if 2 ≤ cs.length ∧
      ((cs.head? = some dquote ∧ cs.getLast? = some dquote) ∨
       (cs.head? = some squote ∧ cs.getLast? = some squote)) then
    String.mk (cs.drop 1).dropLast
  else v

/-- Insert-or-update preserving first-insertion order, the JS object
semantics of `envVars[key] = value`. -/
def upsert (m : List (String × String)) (k v : String) : List (String × String) :=
  if m.any (fun p => p.1 == k) then
    m.map (fun p => if p.1 == k then (k, v) else p)
  else m ++ [(k, v)]

/-- Process one line of the decrypted payload: skip empty lines and lines
whose first character is `#`, otherwise apply the regex and record the
(quote-stripped) pair. -/
def parseEnvLine (acc : List (String × String)) (line : List Char) : List (String × String) :=
  if line = [] ∨ line.head? = some '#' then acc
  else
    match matchEnvLine line with
    | some (k, v) => upsert acc k (stripQuotes v)
    | none => acc

/-- The key-value parser embedded in `decryptEnvFile`: split on newlines
and fold the per-line parser over the lines. -/
def parseEnv (s : String) : List (String × String) :=
  (splitOnChar '\n' s.data).foldl parseEnvLine []

/-! ## The two engine operations over an explicit world -/

/-- The ambient process state both operations read: the environment table
(`process.env`), the file store and the working directory. -/
structure World where
  envTable : List (String × String)
  fs : List (String × String)
  cwd : String

/-- Lookup of `process.env[k]`. -/
def envGet (t : List (String × String)) (k : String) : Option String :=
  t.lookup k

/-- Read of a file's text by absolute path (`fs.readFileSync`). -/
def fsRead (fs : List (String × String)) (p : String) : Option String :=
  fs.lookup p

/-- Write of a file's text by absolute path (`fs.writeFileSync`). -/
def fsWrite (fs : List (String × String)) (p content : String) : List (String × String) :=
  upsert fs p content

/-- Model of the source's `clearBuffer`: `buffer.fill(0)`. -/
def clearBuffer (b : Bytes) : Bytes := b.map (fun _ => 0)

/-- The container `encryptEnvFile` assembles from the plaintext, the
passphrase and the freshly drawn salt and iv. -/
def encryptContainer (plaintext key : String) (salt iv : Bytes) : Container :=
  let keyBuffer := scryptModel key salt
  let ct := gcmCiphertext keyBuffer iv (strBytes plaintext)
  { version := "1.0.0", salt := salt, iv := iv, content := ct,
    authTag := gcmTag keyBuffer iv ct }

/-- Outcome of an `encryptEnvFile` call: the result or thrown error, the
final file store, the event trace, and the final contents of the two
key-material buffers when the call returns (`none` = never allocated on
this path). -/
structure EncResult where
  result : Except Thrown Unit
  fs : List (String × String)
  trace : List Event
  keyBufferFinal : Option Bytes
  saltBufferFinal : Option Bytes
deriving DecidableEq

/-- Model of the source's `encryptEnvFile`, in the source's order: resolve
the passphrase, validate the source path, read the plaintext, derive the
key from the fresh salt, encrypt under the fresh iv, serialize, validate
the output path, write. The `finally` block fills both buffers with
zeros on every exit path on which they were allocated. -/
def encryptEnvFile (w : World) (saltR ivR : Bytes)
    (sourcePath outputPath keyEnvVar : String) : EncResult :=
  match envGet w.envTable keyEnvVar with
  | none =>
    ⟨.error (.envCryptoError s!"Environment variable {keyEnvVar} not found" "KEY_NOT_FOUND"),
      w.fs, [], none, none⟩
  | some key =>
    if key = "" then
      ⟨.error (.envCryptoError s!"Environment variable {keyEnvVar} not found" "KEY_NOT_FOUND"),
        w.fs, [], none, none⟩
    else
      match validatePath w.cwd sourcePath with
      | .error e => ⟨.error e, w.fs, [], none, none⟩
      | .ok vsp =>
        match fsRead w.fs vsp with
        | none => ⟨.error (.fsReadError vsp), w.fs, [.readFile vsp], none, none⟩
        | some plaintext =>
          let salt := saltR
          let keyBuffer := scryptModel key salt
          let c := encryptContainer plaintext key salt ivR
          let encryptedData := serializeContainer c
          match validatePath w.cwd outputPath with
          | .error e =>
            ⟨.error e, w.fs, [.readFile vsp, .deriveKey],
              some (clearBuffer keyBuffer), some (clearBuffer salt)⟩
          | .ok vop =>
            ⟨.ok (), fsWrite w.fs vop encryptedData,
              [.readFile vsp, .deriveKey, .writeFile vop],
              some (clearBuffer keyBuffer), some (clearBuffer salt)⟩

/-- Outcome of a `decryptEnvFile` call: result or thrown error, trace, and
final contents of the derived-key and salt buffers at return time. -/
structure DecResult where
  result : Except Thrown (List (String × String))
  trace : List Event
  keyBufferFinal : Option Bytes
  saltBufferFinal : Option Bytes
deriving DecidableEq

/-- Model of the source's `decryptEnvFile`: resolve the passphrase,
validate the path, read and JSON-parse the container (a parse failure is
the raw `jsonParseError`, not a typed engine error), check the four
required fields by truthiness, hex-decode, derive the key, attempt
authenticated decryption (an authentication failure is the raw
`authError`), and parse the recovered plaintext. The `finally` block
zeroes only the derived key buffer; the salt buffer is returned as-is. -/
def decryptEnvFile (w : World) (sourcePath keyEnvVar : String) : DecResult :=
  match envGet w.envTable keyEnvVar with
  | none =>
    ⟨.error (.envCryptoError s!"Decryption key not found in environment variable {keyEnvVar}" "KEY_NOT_FOUND"),
      [], none, none⟩
  | some key =>
    if key = "" then
      ⟨.error (.envCryptoError s!"Decryption key not found in environment variable {keyEnvVar}" "KEY_NOT_FOUND"),
        [], none, none⟩
    else
      match validatePath w.cwd sourcePath with
      | .error e => ⟨.error e, [], none, none⟩
      | .ok vsp =>
        match fsRead w.fs vsp with
        | none => ⟨.error (.fsReadError vsp), [.readFile vsp], none, none⟩
        | some txt =>
          match jsonParse txt with
          | none => ⟨.error .jsonParseError, [.readFile vsp], none, none⟩
          | some obj =>
            if jGetD obj "salt" = "" ∨ jGetD obj "iv" = "" ∨
                jGetD obj "content" = "" ∨ jGetD obj "authTag" = "" then
              ⟨.error (.envCryptoError "Invalid encrypted file format: missing required fields" "INVALID_FORMAT"),
                [.readFile vsp], none, none⟩
            else
              let salt := hexDecode (jGetD obj "salt")
              let keyBuffer := scryptModel key salt
              let iv := hexDecode (jGetD obj "iv")
              let authTag := hexDecode (jGetD obj "authTag")
              let ct := hexDecode (jGetD obj "content")
              match gcmDecrypt keyBuffer iv ct authTag with
              | none =>
                ⟨.error .authError, [.readFile vsp, .deriveKey],
                  some (clearBuffer keyBuffer), some salt⟩
              | some pt =>
                ⟨.ok (parseEnv (bytesStr pt)), [.readFile vsp, .deriveKey],
                  some (clearBuffer keyBuffer), some salt⟩

/-! ## Concrete scenario used by the claims -/

/-- Flip bit `k` of the byte at index `i` of a byte sequence. -/
def flipBit (bs : Bytes) (i k : Nat) : Bytes :=
  bs.set i ((bs.getD i 0) ^^^ (2 ^ k))

/-- A representative working directory (a typical project root: absolute,
normalized and not the filesystem root). -/
def projCwd : String := "/home/user/project"

/-- The resolved default source path under `projCwd`. -/
def srcResolved : String := "/home/user/project/.env"

/-- The resolved default output path under `projCwd`. -/
def outResolved : String := "/home/user/project/.env.encrypted"

/-- The world for the round-trip scenarios: the passphrase `K` stored
under the default key variable and a plaintext source file `P`. -/
def mkWorld (K P : String) : World :=
  { envTable := [("ENV_CRYPTO_KEY", K)],
    fs := [(srcResolved, P)],
    cwd := projCwd }

/-- Byte sequences that are real bytes (below 256). -/
abbrev ByteOk (bs : Bytes) : Prop := ∀ b ∈ bs, b < 256

/-- Strings whose code points fit in one byte (the byte-transparent
fragment of the string model). -/
abbrev StrOk (s : String) : Prop := ∀ c ∈ s.data, c.toNat < 256

/-- Strings free of the two characters the JSON string model cannot carry
(the double quote and the backslash). -/
def CharClean (s : String) : Prop := ∀ c ∈ s.data, ¬(c = dquote ∨ c = '\\')

/-- Whether a thrown error is a typed engine error (an `EnvCryptoError`
carrying a `code` callers can branch on), as opposed to a raw exception
escaping from a Node builtin. -/
def isTypedEngineError : Thrown → Bool
  | .envCryptoError _ _ => true
  | _ => false

/-- The parser edge-case input of the spec:
`DB_HOST="localhost"`, `API_KEY='k'`, `EMPTY=""`, `BAD LINE`, `=NOKEY`,
`OK=`, each on its own line. -/
def c6input : String :=
  "DB_HOST=\"localhost\"\n" ++ "API_KEY=" ++ String.mk [squote] ++ "k" ++
    String.mk [squote] ++ "\nEMPTY=\"\"\nBAD LINE\n=NOKEY\nOK=\n"

/-! ## Lemmas: length markers and the idealized primitives -/

theorem lenEnc_zero : lenEnc 0 = [0] := rfl

theorem lenEnc_succ (n : Nat) : lenEnc (n + 1) = 1 :: lenEnc n := by
  simp [lenEnc, List.replicate_succ]

theorem lenEnc_append_inj {n m : Nat} {xs ys : Bytes}
    (h : lenEnc n ++ xs = lenEnc m ++ ys) : n = m ∧ xs = ys := by
  induction n generalizing m with
  | zero =>
    cases m with
    | zero =>
      rw [lenEnc_zero] at h
      simp only [List.cons_append, List.nil_append, List.cons.injEq, true_and] at h
      exact ⟨rfl, h⟩
    | succ m =>
      rw [lenEnc_zero, lenEnc_succ] at h
      simp at h
  | succ n ih =>
    cases m with
    | zero =>
      rw [lenEnc_succ, lenEnc_zero] at h
      simp at h
    | succ m =>
      rw [lenEnc_succ n, lenEnc_succ m] at h
      simp only [List.cons_append, List.cons.injEq, true_and] at h
      obtain ⟨hnm, hxy⟩ := ih h
      exact ⟨by omega, hxy⟩

theorem encPrefix_append_inj {k i c k' i' c' : Bytes}
    (h : encPrefix k i ++ c = encPrefix k' i' ++ c') :
    k = k' ∧ i = i' ∧ c = c' := by
  unfold encPrefix at h
  simp only [List.append_assoc] at h
  obtain ⟨hkl, h2⟩ := lenEnc_append_inj h
  obtain ⟨hkeq, h3⟩ := List.append_inj h2 hkl
  obtain ⟨hil, h4⟩ := lenEnc_append_inj h3
  obtain ⟨hieq, hceq⟩ := List.append_inj h4 hil
  exact ⟨hkeq, hieq, hceq⟩

theorem gcmTag_inj {key iv ct key' iv' ct' : Bytes}
    (h : gcmTag key iv ct = gcmTag key' iv' ct') :
    key = key' ∧ iv = iv' ∧ ct = ct' :=
  encPrefix_append_inj h

theorem gcmDecrypt_gcmEncrypt (key iv pt : Bytes) :
    gcmDecrypt key iv (gcmCiphertext key iv pt) (gcmTag key iv (gcmCiphertext key iv pt)) =
      some pt := by
  have hpre : (encPrefix key iv).isPrefixOf (gcmCiphertext key iv pt) = true := by
    rw [List.isPrefixOf_iff_prefix]
    exact List.prefix_append _ _
  unfold gcmDecrypt
  rw [if_pos rfl, if_pos hpre]
  unfold gcmCiphertext
  rw [List.drop_left]

theorem gcmDecrypt_reject {key iv ct key0 iv0 ct0 : Bytes}
    (h : ¬(key = key0 ∧ iv = iv0 ∧ ct = ct0)) :
    gcmDecrypt key iv ct (gcmTag key0 iv0 ct0) = none := by
  unfold gcmDecrypt
  rw [if_neg]
  intro he
  exact h (gcmTag_inj he)

theorem char_toNat_injective : Function.Injective Char.toNat := by
  intro a b h
  have h2 := congrArg Char.ofNat h
  rwa [Char.ofNat_toNat, Char.ofNat_toNat] at h2

theorem strBytes_inj {p q : String} (h : strBytes p = strBytes q) : p = q := by
  unfold strBytes at h
  have hd := (List.map_injective_iff.mpr char_toNat_injective) h
  cases p
  cases q
  exact congrArg String.mk (by simpa using hd)

theorem scryptModel_inj {p q : String} {s t : Bytes}
    (h : scryptModel p s = scryptModel q t) : p = q ∧ s = t := by
  unfold scryptModel at h
  obtain ⟨hl, h2⟩ := lenEnc_append_inj h
  obtain ⟨hb, hs⟩ := List.append_inj h2 hl
  exact ⟨strBytes_inj hb, hs⟩

/-- Round trip of the byte-transparent string model. -/
theorem bytesStr_strBytes (s : String) : bytesStr (strBytes s) = s := by
  unfold bytesStr strBytes
  rw [List.map_map]
  have hc : (Char.ofNat ∘ Char.toNat) = id := funext Char.ofNat_toNat
  rw [hc, List.map_id]

/-! ## Lemmas: hex encoding -/

@[simp] theorem mk_data (l : List Char) : (String.mk l).data = l := rfl

theorem hexVal_hexDigitChar {x : Nat} (hx : x < 16) : hexVal (hexDigitChar x) = some x := by
  interval_cases x <;> decide

theorem hexDigitChar_clean {x : Nat} (hx : x < 16) :
    ¬(hexDigitChar x = dquote ∨ hexDigitChar x = '\\') := by
  interval_cases x <;> decide

theorem hexEncodeChars_cons (b : Nat) (bs : Bytes) :
    hexEncodeChars (b :: bs) =
      hexDigitChar (b / 16) :: hexDigitChar (b % 16) :: hexEncodeChars bs := rfl

theorem hexDecode_hexEncode {bs : Bytes} (h : ByteOk bs) : hexDecode (hexEncode bs) = bs := by
  unfold hexDecode hexEncode
  rw [mk_data]
  induction bs with
  | nil => rfl
  | cons b rest ih =>
    have hb : b < 256 := h b (by simp)
    have h16 : b / 16 < 16 := (Nat.div_lt_iff_lt_mul (by norm_num)).mpr (by omega)
    have hm : b % 16 < 16 := Nat.mod_lt _ (by norm_num)
    rw [hexEncodeChars_cons]
    simp only [hexDecodeChars, hexVal_hexDigitChar h16, hexVal_hexDigitChar hm]
    rw [Nat.div_add_mod]
    rw [ih (fun x hx => h x (by simp [hx]))]

theorem hexEncode_ne_empty {bs : Bytes} (h : bs ≠ []) : hexEncode bs ≠ "" := by
  cases bs with
  | nil => exact absurd rfl h
  | cons b rest =>
    unfold hexEncode
    rw [hexEncodeChars_cons]
    intro he
    have hd : hexDigitChar (b / 16) :: hexDigitChar (b % 16) :: hexEncodeChars rest =
        "".data := congrArg String.data he
    simp at hd

theorem hexEncodeChars_clean {bs : Bytes} (h : ByteOk bs) :
    ∀ ch ∈ hexEncodeChars bs, ¬(ch = dquote ∨ ch = '\\') := by
  induction bs with
  | nil =>
    intro ch hch
    simp [hexEncodeChars] at hch
  | cons b rest ih =>
    intro ch hch
    have hb : b < 256 := h b (by simp)
    rw [hexEncodeChars_cons] at hch
    simp only [List.mem_cons] at hch
    rcases hch with rfl | rfl | hmem
    · exact hexDigitChar_clean ((Nat.div_lt_iff_lt_mul (by norm_num)).mpr (by omega))
    · exact hexDigitChar_clean (Nat.mod_lt _ (by norm_num))
    · exact ih (fun x hx => h x (by simp [hx])) ch hmem

theorem hexEncode_clean {bs : Bytes} (h : ByteOk bs) : CharClean (hexEncode bs) := by
  intro ch hch
  exact hexEncodeChars_clean h ch hch

/-! ## Lemmas: the JSON subset parser against the serializer -/

theorem dropWhile_cons_false {p : Char → Bool} {a : Char} (h : p a = false) (l : List Char) :
    (a :: l).dropWhile p = a :: l := by
  simp [List.dropWhile_cons, h]

theorem isJsonWs_dquote : isJsonWs dquote = false := by decide

theorem isJsonWs_colon : isJsonWs ':' = false := by decide

theorem isJsonWs_comma : isJsonWs ',' = false := by decide

theorem isJsonWs_rbrace : isJsonWs '}' = false := by decide

theorem isJsonWs_lbrace : isJsonWs '{' = false := by decide

@[simp] theorem mk_data_eta (s : String) : String.mk s.data = s := rfl

theorem parseJString_append {s : List Char}
    (h : ∀ c ∈ s, ¬(c = dquote ∨ c = '\\')) (rest : List Char) :
    parseJString (s ++ dquote :: rest) = some (s, rest) := by
  induction s with
  | nil => simp [parseJString]
  | cons c cs ih =>
    have hc := h c (by simp)
    push_neg at hc
    rw [List.cons_append]
    simp only [parseJString, if_neg hc.1, if_neg hc.2,
      ih (fun x hx => h x (by simp [hx]))]

theorem parseMembers_field (fuel : Nat) {k v : String}
    (hk : CharClean k) (hv : CharClean v) (tail : List Char) :
    parseMembers (fuel + 1) (jfield k.data v.data ++ tail) =
      (match tail.dropWhile isJsonWs with
       | [] => none
       | e :: cs9 =>
         if e = ',' then
           match parseMembers fuel cs9 with
           | some (ms, r) => some ((k, v) :: ms, r)
           | none => none
         else if e = '}' then some ([(k, v)], cs9)
         else none) := by
  have hks := parseJString_append hk (':' :: dquote :: (v.data ++ dquote :: tail))
  have hvs := parseJString_append hv tail
  simp only [jfield, List.cons_append, List.append_assoc, List.singleton_append,
    List.nil_append]
  simp only [parseMembers]
  rw [dropWhile_cons_false isJsonWs_dquote]
  simp only [eq_self_iff_true, if_true]
  rw [hks]
  simp only []
  rw [dropWhile_cons_false isJsonWs_colon]
  simp only [eq_self_iff_true, if_true]
  rw [dropWhile_cons_false isJsonWs_dquote]
  simp only [eq_self_iff_true, if_true]
  rw [hvs]

theorem jfieldsChars_singleton (kv : String × String) :
    jfieldsChars [kv] = jfield kv.1.data kv.2.data := rfl

theorem jfieldsChars_cons (kv b : String × String) (t : List (String × String)) :
    jfieldsChars (kv :: b :: t) = jfield kv.1.data kv.2.data ++ ',' :: jfieldsChars (b :: t) := rfl

theorem parseMembers_jfields {ms : List (String × String)} (hne : ms ≠ [])
    (hclean : ∀ kv ∈ ms, CharClean kv.1 ∧ CharClean kv.2) (f : Nat) (rest : List Char) :
    parseMembers (f + ms.length) (jfieldsChars ms ++ '}' :: rest) = some (ms, rest) := by
  induction ms generalizing f with
  | nil => exact absurd rfl hne
  | cons kv t ih =>
    obtain ⟨hk, hv⟩ := hclean kv (by simp)
    cases t with
    | nil =>
      rw [jfieldsChars_singleton]
      rw [show f + [kv].length = f + 1 from rfl]
      rw [parseMembers_field f hk hv]
      rw [dropWhile_cons_false isJsonWs_rbrace]
      simp

    | cons b t2 =>
      rw [jfieldsChars_cons]
      simp only [List.append_assoc, List.cons_append]
      rw [show f + (kv :: b :: t2).length = (f + (b :: t2).length) + 1 by
        simp [List.length_cons]; omega]
      rw [parseMembers_field (f + (b :: t2).length) hk hv]
      rw [dropWhile_cons_false isJsonWs_comma]
      simp only [eq_self_iff_true, if_true]
      rw [ih (by simp) (fun x hx => hclean x (by simp [hx])) f]

theorem jfieldsChars_head {ms : List (String × String)} (h : ms ≠ []) :
    ∃ Y, jfieldsChars ms = dquote :: Y := by
  cases ms with
  | nil => exact absurd rfl h
  | cons kv t =>
    cases t with
    | nil => exact ⟨_, rfl⟩
    | cons b t2 => exact ⟨_, rfl⟩

theorem jfieldsChars_length {ms : List (String × String)} (h : ms ≠ []) :
    ms.length ≤ (jfieldsChars ms).length := by
  induction ms with
  | nil => exact absurd rfl h
  | cons kv t ih =>
    cases t with
    | nil => simp [jfieldsChars_singleton, jfield]
    | cons b t2 =>
      rw [jfieldsChars_cons]
      have := ih (by simp)
      simp only [List.length_cons, List.length_append, jfield]
      simp at this ⊢
      omega

theorem jsonParse_object {ms : List (String × String)} (hne : ms ≠ [])
    (hclean : ∀ kv ∈ ms, CharClean kv.1 ∧ CharClean kv.2) :
    jsonParse (String.mk ('{' :: jfieldsChars ms ++ ['}'])) = some ms := by
  obtain ⟨Y, hY⟩ := jfieldsChars_head hne
  unfold jsonParse
  rw [mk_data]
  rw [List.cons_append, dropWhile_cons_false isJsonWs_lbrace]
  simp only [eq_self_iff_true, if_true]
  rw [show jfieldsChars ms ++ ['}'] = dquote :: (Y ++ ['}']) by rw [hY]; rfl]
  rw [dropWhile_cons_false isJsonWs_dquote]
  simp only []
  rw [if_neg (by decide : ¬(dquote = '}'))]
  rw [show dquote :: (Y ++ ['}']) = jfieldsChars ms ++ '}' :: [] by rw [hY]; rfl]
  have hlen : ms.length ≤ (jfieldsChars ms ++ '}' :: []).length + 1 := by
    have := jfieldsChars_length hne
    simp [List.length_append]
    omega
  obtain ⟨f, hf⟩ : ∃ f, (jfieldsChars ms ++ '}' :: []).length + 1 = f + ms.length :=
    ⟨(jfieldsChars ms ++ '}' :: []).length + 1 - ms.length, by omega⟩
  rw [hf]
  rw [parseMembers_jfields hne hclean f]
  simp

theorem containerFields_clean {c : Container} (hv : CharClean c.version)
    (h1 : ByteOk c.salt) (h2 : ByteOk c.iv) (h3 : ByteOk c.content) (h4 : ByteOk c.authTag) :
    ∀ kv ∈ containerFields c, CharClean kv.1 ∧ CharClean kv.2 := by
  intro kv hkv
  simp only [containerFields, List.mem_cons, List.not_mem_nil, or_false] at hkv
  rcases hkv with rfl | rfl | rfl | rfl | rfl
  · exact ⟨(by decide : ∀ c ∈ "version".data, ¬(c = dquote ∨ c = '\\')), hv⟩
  · exact ⟨(by decide : ∀ c ∈ "salt".data, ¬(c = dquote ∨ c = '\\')), hexEncode_clean h1⟩
  · exact ⟨(by decide : ∀ c ∈ "iv".data, ¬(c = dquote ∨ c = '\\')), hexEncode_clean h2⟩
  · exact ⟨(by decide : ∀ c ∈ "content".data, ¬(c = dquote ∨ c = '\\')), hexEncode_clean h3⟩
  · exact ⟨(by decide : ∀ c ∈ "authTag".data, ¬(c = dquote ∨ c = '\\')), hexEncode_clean h4⟩

/-- The container text written by encrypt parses back to its five fields. -/
theorem jsonParse_serialize {c : Container} (hv : CharClean c.version)
    (h1 : ByteOk c.salt) (h2 : ByteOk c.iv) (h3 : ByteOk c.content) (h4 : ByteOk c.authTag) :
    jsonParse (serializeContainer c) = some (containerFields c) := by
  unfold serializeContainer
  exact jsonParse_object (by simp [containerFields]) (containerFields_clean hv h1 h2 h3 h4)

theorem jGetD_salt (c : Container) : jGetD (containerFields c) "salt" = hexEncode c.salt := rfl

theorem jGetD_iv (c : Container) : jGetD (containerFields c) "iv" = hexEncode c.iv := rfl

theorem jGetD_content (c : Container) :
    jGetD (containerFields c) "content" = hexEncode c.content := rfl

theorem jGetD_authTag (c : Container) :
    jGetD (containerFields c) "authTag" = hexEncode c.authTag := rfl

/-! ## Lemmas: running the two operations in the concrete scenario world -/

theorem vp_src : validatePath projCwd ".env" = .ok srcResolved := by decide

theorem vp_out : validatePath projCwd ".env.encrypted" = .ok outResolved := by decide

/-- Unfolds one `decryptEnvFile` run on a world whose file store holds a
serialized container at the resolved default output path, up to the
authenticated-decryption step. -/
theorem decryptEnvFile_container {K : String} (hK : K ≠ "") (fs : List (String × String))
    {c : Container} (hfs : fsRead fs outResolved = some (serializeContainer c))
    (hv : CharClean c.version) (h1 : ByteOk c.salt) (h2 : ByteOk c.iv)
    (h3 : ByteOk c.content) (h4 : ByteOk c.authTag)
    (hs : c.salt ≠ []) (hi : c.iv ≠ []) (hc : c.content ≠ []) (ha : c.authTag ≠ []) :
    decryptEnvFile ⟨[("ENV_CRYPTO_KEY", K)], fs, projCwd⟩ ".env.encrypted" "ENV_CRYPTO_KEY" =
      ⟨(match gcmDecrypt (scryptModel K c.salt) c.iv c.content c.authTag with
        | none => .error .authError
        | some pt => .ok (parseEnv (bytesStr pt))),
       [.readFile outResolved, .deriveKey],
       some (clearBuffer (scryptModel K c.salt)),
       some c.salt⟩ := by
  have hcond : ¬(jGetD (containerFields c) "salt" = "" ∨ jGetD (containerFields c) "iv" = "" ∨
      jGetD (containerFields c) "content" = "" ∨ jGetD (containerFields c) "authTag" = "") := by
    push_neg
    rw [jGetD_salt, jGetD_iv, jGetD_content, jGetD_authTag]
    exact ⟨hexEncode_ne_empty hs, hexEncode_ne_empty hi,
      hexEncode_ne_empty hc, hexEncode_ne_empty ha⟩
  unfold decryptEnvFile
  rw [show envGet [("ENV_CRYPTO_KEY", K)] "ENV_CRYPTO_KEY" = some K from by
    simp [envGet, List.lookup]]
  simp only []
  rw [if_neg hK]
  rw [vp_out]
  simp only []
  rw [hfs]
  simp only []
  rw [jsonParse_serialize hv h1 h2 h3 h4]
  simp only []
  rw [if_neg hcond]
  simp only [jGetD_salt, jGetD_iv, jGetD_content, jGetD_authTag,
    hexDecode_hexEncode h1, hexDecode_hexEncode h2, hexDecode_hexEncode h3,
    hexDecode_hexEncode h4]
  cases gcmDecrypt (scryptModel K c.salt) c.iv c.content c.authTag <;> rfl

/-- Unfolds one successful `encryptEnvFile` run in the scenario world. -/
theorem encryptEnvFile_run {K : String} (P : String) (hK : K ≠ "") (salt iv : Bytes) :
    encryptEnvFile (mkWorld K P) salt iv ".env" ".env.encrypted" "ENV_CRYPTO_KEY" =
      ⟨.ok (),
       [(srcResolved, P), (outResolved, serializeContainer (encryptContainer P K salt iv))],
       [.readFile srcResolved, .deriveKey, .writeFile outResolved],
       some (clearBuffer (scryptModel K salt)), some (clearBuffer salt)⟩ := by
  unfold encryptEnvFile mkWorld
  rw [show envGet [("ENV_CRYPTO_KEY", K)] "ENV_CRYPTO_KEY" = some K from by
    simp [envGet, List.lookup]]
  simp only []
  rw [if_neg hK]
  rw [vp_src]
  simp only []
  rw [show fsRead [(srcResolved, P)] srcResolved = some P from by simp [fsRead, List.lookup]]
  simp only []
  rw [vp_out]
  simp only []
  rw [show fsWrite [(srcResolved, P)] outResolved
        (serializeContainer (encryptContainer P K salt iv)) =
      [(srcResolved, P), (outResolved, serializeContainer (encryptContainer P K salt iv))] from by
    simp [fsWrite, upsert, srcResolved, outResolved]]

/-! ## Lemmas: byte bounds and non-emptiness of the container fields -/

theorem byteOk_lenEnc (n : Nat) : ByteOk (lenEnc n) := by
  intro b hb
  unfold lenEnc at hb
  rcases List.mem_append.mp hb with h | h
  · have := (List.eq_of_mem_replicate h)
    omega
  · simp at h
    omega

theorem byteOk_append {a b : Bytes} (ha : ByteOk a) (hb : ByteOk b) : ByteOk (a ++ b) := by
  intro x hx
  rcases List.mem_append.mp hx with h | h
  · exact ha x h
  · exact hb x h

theorem byteOk_strBytes {s : String} (h : StrOk s) : ByteOk (strBytes s) := by
  intro b hb
  unfold strBytes at hb
  obtain ⟨ch, hch, rfl⟩ := List.mem_map.mp hb
  exact h ch hch

theorem byteOk_scrypt {K : String} {salt : Bytes} (hK : StrOk K) (hs : ByteOk salt) :
    ByteOk (scryptModel K salt) :=
  byteOk_append (byteOk_lenEnc _) (byteOk_append (byteOk_strBytes hK) hs)

theorem byteOk_encPrefix {key iv : Bytes} (hk : ByteOk key) (hi : ByteOk iv) :
    ByteOk (encPrefix key iv) :=
  byteOk_append (byteOk_lenEnc _)
    (byteOk_append hk (byteOk_append (byteOk_lenEnc _) hi))

theorem byteOk_gcmCiphertext {key iv pt : Bytes}
    (hk : ByteOk key) (hi : ByteOk iv) (hp : ByteOk pt) :
    ByteOk (gcmCiphertext key iv pt) :=
  byteOk_append (byteOk_encPrefix hk hi) hp

theorem byteOk_gcmTag {key iv ct : Bytes}
    (hk : ByteOk key) (hi : ByteOk iv) (hc : ByteOk ct) :
    ByteOk (gcmTag key iv ct) :=
  byteOk_append (byteOk_encPrefix hk hi) hc

theorem lenEnc_ne_nil (n : Nat) : lenEnc n ≠ [] := by
  unfold lenEnc
  simp

theorem encPrefix_ne_nil (key iv : Bytes) : encPrefix key iv ≠ [] := by
  unfold encPrefix
  intro h
  exact lenEnc_ne_nil key.length (List.append_eq_nil.mp h).1

theorem gcmCiphertext_ne_nil (key iv pt : Bytes) : gcmCiphertext key iv pt ≠ [] := by
  unfold gcmCiphertext
  intro h
  exact encPrefix_ne_nil key iv (List.append_eq_nil.mp h).1

theorem gcmTag_ne_nil (key iv ct : Bytes) : gcmTag key iv ct ≠ [] := by
  unfold gcmTag
  intro h
  exact encPrefix_ne_nil key iv (List.append_eq_nil.mp h).1

/-- Byte bounds for all four binary fields of the container encrypt builds. -/
theorem encryptContainer_byteOk {P K : String} {salt iv : Bytes}
    (hP : StrOk P) (hK : StrOk K) (hs : ByteOk salt) (hi : ByteOk iv) :
    ByteOk (encryptContainer P K salt iv).salt ∧ ByteOk (encryptContainer P K salt iv).iv ∧
    ByteOk (encryptContainer P K salt iv).content ∧
    ByteOk (encryptContainer P K salt iv).authTag := by
  refine ⟨hs, hi, ?_, ?_⟩
  · exact byteOk_gcmCiphertext (byteOk_scrypt hK hs) hi (byteOk_strBytes hP)
  · exact byteOk_gcmTag (byteOk_scrypt hK hs) hi
      (byteOk_gcmCiphertext (byteOk_scrypt hK hs) hi (byteOk_strBytes hP))

/-! ## Lemmas: the path validator -/

theorem commonLen_le (f t : List (List Char)) : commonLen f t ≤ f.length := by
  induction f generalizing t with
  | nil => cases t <;> simp [commonLen]
  | cons a as ih =>
    cases t with
    | nil => simp [commonLen]
    | cons b bs =>
      simp only [commonLen]
      split
      · have := ih bs
        simp only [List.length_cons]
        omega
      · simp

theorem commonLen_eq_length {f t : List (List Char)} (h : commonLen f t = f.length) :
    f <+: t := by
  induction f generalizing t with
  | nil => exact List.nil_prefix
  | cons a as ih =>
    cases t with
    | nil => simp [commonLen] at h
    | cons b bs =>
      simp only [commonLen, List.length_cons] at h
      by_cases hab : a = b
      · rw [if_pos hab] at h
        subst hab
        exact List.cons_prefix_cons.mpr ⟨rfl, ih (by omega)⟩
      · rw [if_neg hab] at h
        omega

theorem intercalate_cons (s x : List Char) (L : List (List Char)) :
    ∃ r, List.intercalate s (x :: L) = x ++ r := by
  cases L with
  | nil => exact ⟨[], by simp [List.intercalate, List.intersperse]⟩
  | cons y M =>
    refine ⟨s ++ List.intercalate s (y :: M), ?_⟩
    simp [List.intercalate, List.intersperse]

/-- When the cwd's segments are not a prefix of the resolved path's
segments, `path.relative` emits a leading `..` segment. -/
theorem relativeP_escape {fr tp : List Char}
    (h : ¬ (segsOf fr <+: segsOf tp)) :
    ['.', '.'].isPrefixOf (relativeP fr tp) = true := by
  unfold relativeP
  simp only []
  have hle := commonLen_le (segsOf fr) (segsOf tp)
  have hlt : commonLen (segsOf fr) (segsOf tp) < (segsOf fr).length := by
    rcases Nat.lt_or_ge (commonLen (segsOf fr) (segsOf tp)) (segsOf fr).length with h1 | h1
    · exact h1
    · exact absurd (commonLen_eq_length (by omega)) h
  obtain ⟨d, hd⟩ : ∃ d, (segsOf fr).length - commonLen (segsOf fr) (segsOf tp) = d + 1 :=
    ⟨(segsOf fr).length - commonLen (segsOf fr) (segsOf tp) - 1, by omega⟩
  rw [hd, List.replicate_succ, List.cons_append]
  obtain ⟨r, hr⟩ := intercalate_cons ['/'] ['.', '.']
    (List.replicate d ['.', '.'] ++ (segsOf tp).drop (commonLen (segsOf fr) (segsOf tp)))
  rw [hr, List.isPrefixOf_iff_prefix]
  exact List.prefix_append _ _

/-- The validator rejects every input whose resolved path lies outside the
cwd subtree (in segment terms). -/
theorem validatePath_escape {cwd p : String}
    (h : ¬ (segsOf (resolve1 cwd.data) <+: segsOf (resolveP cwd.data p.data))) :
    validatePath cwd p = .error invalidPathErr := by
  unfold validatePath
  simp only []
  rw [if_pos (Or.inl (relativeP_escape h))]

/-- The validator rejects every input whose cwd-relative form starts with
the two characters `..`, whether or not it actually leaves the tree. -/
theorem validatePath_relPrefix {cwd p : String}
    (h : ['.', '.'].isPrefixOf (relativeP (resolve1 cwd.data) (resolveP cwd.data p.data)) = true) :
    validatePath cwd p = .error invalidPathErr := by
  unfold validatePath
  simp only []
  rw [if_pos (Or.inl h)]

/-! ## Lemmas: shared round-trip core -/

/-- Running encrypt in the scenario world and then decrypt on the written
container recovers exactly the parsed plaintext mapping. -/
theorem roundtrip_core (P K : String) (salt iv : Bytes) (hK : K ≠ "")
    (hP : StrOk P) (hKb : StrOk K) (hsalt : ByteOk salt) (hiv : ByteOk iv)
    (hsne : salt ≠ []) (hine : iv ≠ []) :
    (decryptEnvFile
        ⟨[("ENV_CRYPTO_KEY", K)],
         (encryptEnvFile (mkWorld K P) salt iv ".env" ".env.encrypted" "ENV_CRYPTO_KEY").fs,
         projCwd⟩ ".env.encrypted" "ENV_CRYPTO_KEY").result = .ok (parseEnv P) := by
  rw [encryptEnvFile_run P hK salt iv]
  simp only []
  have hb := encryptContainer_byteOk hP hKb hsalt hiv
  have hfs : fsRead
      [(srcResolved, P), (outResolved, serializeContainer (encryptContainer P K salt iv))]
      outResolved = some (serializeContainer (encryptContainer P K salt iv)) := by
    simp [fsRead, List.lookup, srcResolved, outResolved]
  rw [decryptEnvFile_container hK _ hfs
    (show CharClean (encryptContainer P K salt iv).version from
      (by decide : ∀ ch ∈ "1.0.0".data, ¬(ch = dquote ∨ ch = '\\')))
    hb.1 hb.2.1 hb.2.2.1 hb.2.2.2 hsne hine
    (gcmCiphertext_ne_nil _ _ _) (gcmTag_ne_nil _ _ _)]
  have hgcm : gcmDecrypt (scryptModel K (encryptContainer P K salt iv).salt)
      (encryptContainer P K salt iv).iv (encryptContainer P K salt iv).content
      (encryptContainer P K salt iv).authTag = some (strBytes P) :=
    gcmDecrypt_gcmEncrypt (scryptModel K salt) iv (strBytes P)
  simp only []
  rw [hgcm]
  simp only []
  rw [bytesStr_strBytes]

/-! ## Lemmas: bit flips -/

theorem byteOk_flipBit {bs : Bytes} {i k : Nat} (h : ByteOk bs) (hk : k < 8) :
    ByteOk (flipBit bs i k) := by
  intro x hx
  unfold flipBit at hx
  rcases List.mem_or_eq_of_mem_set hx with hmem | rfl
  · exact h x hmem
  · have hb : bs.getD i 0 < 256 := by
      rcases Nat.lt_or_ge i bs.length with hi | hi
      · rw [List.getD_eq_getElem _ _ (by simpa using hi)]
        exact h _ (List.getElem_mem _)
      · rw [List.getD_eq_default _ _ hi]
        omega
    have e : (256 : Nat) = 2 ^ 8 := by norm_num
    rw [e] at hb ⊢
    exact Nat.xor_lt_two_pow hb (Nat.pow_lt_pow_right (by norm_num) hk)

theorem flipBit_ne_nil {bs : Bytes} {i k : Nat} (h : bs ≠ []) : flipBit bs i k ≠ [] := by
  unfold flipBit
  intro he
  apply h
  have hl := congrArg List.length he
  simp only [List.length_set, List.length_nil] at hl
  exact List.length_eq_zero.mp hl

theorem flipBit_ne {bs : Bytes} {i k : Nat} (hi : i < bs.length) : flipBit bs i k ≠ bs := by
  unfold flipBit
  intro he
  have hg := congrArg (fun l => l.getD i 0) he
  simp only [] at hg
  rw [List.getD_eq_getElem _ _ (by simpa using hi)] at hg
  rw [List.getElem_set_self] at hg
  rw [List.getD_eq_getElem _ _ (by simpa using hi)] at hg
  have h2 : bs[i] ^^^ (bs[i] ^^^ 2 ^ k) = bs[i] ^^^ bs[i] := by rw [hg]
  rw [← Nat.xor_assoc, Nat.xor_self, Nat.zero_xor] at h2
  simp at h2

/-! ## Claim theorems -/

/-- Claim C1: for every plaintext payload `P` and every non-empty
passphrase `K` (byte-transparent strings; the salt and iv are the non-empty
random byte draws of the call), decrypting with `decryptEnvFile` the
container `encryptEnvFile` wrote for `P` under the same `K` returns exactly
the key-value mapping the embedded key-value parser produces on `P`. -/
theorem c1_roundtrip (P K : String) (salt iv : Bytes) (hK : K ≠ "")
    (hP : StrOk P) (hKb : StrOk K) (hsalt : ByteOk salt) (hiv : ByteOk iv)
    (hsne : salt ≠ []) (hine : iv ≠ []) :
    (decryptEnvFile
        ⟨[("ENV_CRYPTO_KEY", K)],
         (encryptEnvFile (mkWorld K P) salt iv ".env" ".env.encrypted" "ENV_CRYPTO_KEY").fs,
         projCwd⟩ ".env.encrypted" "ENV_CRYPTO_KEY").result = .ok (parseEnv P) :=
  roundtrip_core P K salt iv hK hP hKb hsalt hiv hsne hine

/-- Witness for C1, on the repository's own test vector: encrypting
`TEST_VAR=123\nANOTHER_VAR=hello,world\n` under `mkNA802Hqwxpl6c0` and
decrypting recovers the parsed mapping. -/
theorem c1_roundtrip_witness :
    (decryptEnvFile
        ⟨[("ENV_CRYPTO_KEY", "mkNA802Hqwxpl6c0")],
         (encryptEnvFile (mkWorld "mkNA802Hqwxpl6c0" "TEST_VAR=123\nANOTHER_VAR=hello,world\n")
            [5] [7] ".env" ".env.encrypted" "ENV_CRYPTO_KEY").fs,
         projCwd⟩ ".env.encrypted" "ENV_CRYPTO_KEY").result =
      .ok (parseEnv "TEST_VAR=123\nANOTHER_VAR=hello,world\n") ∧
    parseEnv "TEST_VAR=123\nANOTHER_VAR=hello,world\n" =
      [("TEST_VAR", "123"), ("ANOTHER_VAR", "hello,world")] :=
  ⟨c1_roundtrip "TEST_VAR=123\nANOTHER_VAR=hello,world\n" "mkNA802Hqwxpl6c0" [5] [7]
      (by decide) (by decide) (by decide) (by decide) (by decide) (by decide) (by decide),
    by decide⟩

/-- Claim C4: the path validator rejects with the `INVALID_PATH` engine
error every input whose resolved path lies outside the working-directory
subtree (first conjunct, with "outside" in resolved-segment terms), and on
a representative project cwd rejects forward-slash traversal,
backslash-delimited traversal and out-of-tree absolute paths while
accepting in-tree relative paths, returning their resolved absolute
form. -/
theorem c4_path_validator :
    (∀ cwd p : String,
      ¬ (segsOf (resolve1 cwd.data) <+: segsOf (resolveP cwd.data p.data)) →
      validatePath cwd p = .error invalidPathErr) ∧
    validatePath projCwd "../../etc/passwd" = .error invalidPathErr ∧
    validatePath projCwd "..\\..\\windows\\system32" = .error invalidPathErr ∧
    validatePath projCwd "/etc/passwd" = .error invalidPathErr ∧
    validatePath projCwd ".env" = .ok srcResolved ∧
    validatePath projCwd "./subdir/.env" = .ok "/home/user/project/subdir/.env" := by
  refine ⟨fun cwd p h => validatePath_escape h, by decide, by decide, by decide, vp_src, by decide⟩

/-- Witness for C4: the escape rule applied at a concrete escaping input. -/
theorem c4_path_validator_witness :
    validatePath projCwd "../escape.txt" = .error invalidPathErr :=
  c4_path_validator.1 projCwd "../escape.txt" (by decide)

/-- Claim C10: the validator decides membership by the string form of the
cwd-relative path: every input whose relative form begins with the two
characters `..` is rejected (first conjunct), so the in-tree entry name
`..hidden` — whose resolved segments the cwd's segments do prefix, i.e. it
does not escape — is rejected as well. -/
theorem c10_dotdot_prefix :
    (∀ cwd p : String,
      ['.', '.'].isPrefixOf
          (relativeP (resolve1 cwd.data) (resolveP cwd.data p.data)) = true →
      validatePath cwd p = .error invalidPathErr) ∧
    validatePath projCwd "..hidden" = .error invalidPathErr ∧
    segsOf (resolve1 projCwd.data) <+: segsOf (resolveP projCwd.data "..hidden".data) := by
  refine ⟨fun cwd p h => validatePath_relPrefix h, by decide, by decide⟩

/-- Witness for C10: the relative-prefix rule applied at another in-tree
dot-dot-named entry. -/
theorem c10_dotdot_prefix_witness :
    validatePath projCwd "..config" = .error invalidPathErr :=
  c10_dotdot_prefix.1 projCwd "..config" (by decide)

/-- Claim C5: a container file whose text parses as the structured format
but lacks any one of `salt`, `iv`, `content`, `authTag` makes
`decryptEnvFile` fail with the typed `INVALID_FORMAT` engine error. -/
theorem c5_missing_field (K txt : String) (obj : List (String × String)) (hK : K ≠ "")
    (hjson : jsonParse txt = some obj)
    (hmiss : jGet obj "salt" = none ∨ jGet obj "iv" = none ∨
      jGet obj "content" = none ∨ jGet obj "authTag" = none) :
    (decryptEnvFile ⟨[("ENV_CRYPTO_KEY", K)], [(outResolved, txt)], projCwd⟩
        ".env.encrypted" "ENV_CRYPTO_KEY").result =
      .error (.envCryptoError "Invalid encrypted file format: missing required fields"
        "INVALID_FORMAT") := by
  have hcond : jGetD obj "salt" = "" ∨ jGetD obj "iv" = "" ∨
      jGetD obj "content" = "" ∨ jGetD obj "authTag" = "" := by
    rcases hmiss with h | h | h | h
    · exact Or.inl (by unfold jGetD; rw [h]; rfl)
    · exact Or.inr (Or.inl (by unfold jGetD; rw [h]; rfl))
    · exact Or.inr (Or.inr (Or.inl (by unfold jGetD; rw [h]; rfl)))
    · exact Or.inr (Or.inr (Or.inr (by unfold jGetD; rw [h]; rfl)))
  unfold decryptEnvFile
  rw [show envGet [("ENV_CRYPTO_KEY", K)] "ENV_CRYPTO_KEY" = some K from by
    simp [envGet, List.lookup]]
  simp only []
  rw [if_neg hK]
  rw [vp_out]
  simp only []
  rw [show fsRead [(outResolved, txt)] outResolved = some txt from by
    simp [fsRead, List.lookup]]
  simp only []
  rw [hjson]
  simp only []
  rw [if_pos hcond]

/-- Witness for C5: a concrete parseable container with no `salt` field. -/
theorem c5_missing_field_witness :
    (decryptEnvFile
        ⟨[("ENV_CRYPTO_KEY", "k")],
         [(outResolved, "\x7b\"iv\":\"aa\",\"content\":\"bb\",\"authTag\":\"cc\"\x7d")],
         projCwd⟩ ".env.encrypted" "ENV_CRYPTO_KEY").result =
      .error (.envCryptoError "Invalid encrypted file format: missing required fields"
        "INVALID_FORMAT") :=
  c5_missing_field "k" "\x7b\"iv\":\"aa\",\"content\":\"bb\",\"authTag\":\"cc\"\x7d"
    [("iv", "aa"), ("content", "bb"), ("authTag", "cc")]
    (by decide) (by decide) (Or.inl (by decide))

/-- Claim C6: the key-value parser on the edge-case input yields exactly
the four-entry mapping: matching outer quote pairs are stripped with the
interior kept verbatim, the line with no `=` is dropped, the line with an
empty key is dropped, and `OK=` maps to the empty string. -/
theorem c6_parser_edge_cases :
    parseEnv c6input =
      [("DB_HOST", "localhost"), ("API_KEY", "k"), ("EMPTY", ""), ("OK", "")] ∧
    (parseEnv c6input).length = 4 := by
  constructor <;> decide

set_option maxRecDepth 40000 in
/-- Claim C2 as stated is false on the code: authenticated-decryption
failure surfaces as the raw cipher authentication error, not as a typed
engine error kind — there is no `DecryptionFailed` code in the source. This
run decrypts a container whose first content byte had bit 0 flipped: the
result is the untyped `authError`. -/
theorem c2_counterexample :
    (decryptEnvFile
        ⟨[("ENV_CRYPTO_KEY", "k")],
         [(outResolved, serializeContainer
            { encryptContainer "A=1" "k" [5] [7] with
              content := flipBit (encryptContainer "A=1" "k" [5] [7]).content 0 0 })],
         projCwd⟩ ".env.encrypted" "ENV_CRYPTO_KEY").result = .error .authError ∧
    isTypedEngineError .authError = false := by
  constructor <;> decide

/-- Claim C2 (amended): flipping any single bit of any byte of the
container's `content` or `authTag` before decrypting, and likewise
decrypting with any passphrase different from the one used to encrypt,
makes `decryptEnvFile` fail with the (untyped) authentication error — it
never returns a mapping derived from a wrong or corrupted plaintext. -/
theorem c2_tamper_reject (P K : String) (salt iv : Bytes) (hK : K ≠ "")
    (hP : StrOk P) (hKb : StrOk K) (hsalt : ByteOk salt) (hiv : ByteOk iv)
    (hsne : salt ≠ []) (hine : iv ≠ []) :
    (∀ i k, i < (encryptContainer P K salt iv).content.length → k < 8 →
      (decryptEnvFile
        ⟨[("ENV_CRYPTO_KEY", K)],
         [(outResolved, serializeContainer
            { encryptContainer P K salt iv with
              content := flipBit (encryptContainer P K salt iv).content i k })],
         projCwd⟩ ".env.encrypted" "ENV_CRYPTO_KEY").result = .error .authError) ∧
    (∀ i k, i < (encryptContainer P K salt iv).authTag.length → k < 8 →
      (decryptEnvFile
        ⟨[("ENV_CRYPTO_KEY", K)],
         [(outResolved, serializeContainer
            { encryptContainer P K salt iv with
              authTag := flipBit (encryptContainer P K salt iv).authTag i k })],
         projCwd⟩ ".env.encrypted" "ENV_CRYPTO_KEY").result = .error .authError) ∧
    (∀ K', K' ≠ "" → K' ≠ K →
      (decryptEnvFile
        ⟨[("ENV_CRYPTO_KEY", K')],
         [(outResolved, serializeContainer (encryptContainer P K salt iv))],
         projCwd⟩ ".env.encrypted" "ENV_CRYPTO_KEY").result = .error .authError) := by
  have hb := encryptContainer_byteOk hP hKb hsalt hiv
  have hver : CharClean (encryptContainer P K salt iv).version :=
    (by decide : ∀ ch ∈ "1.0.0".data, ¬(ch = dquote ∨ ch = '\\'))
  refine ⟨?_, ?_, ?_⟩
  · intro i k hi hk
    have hfs : fsRead
        [(outResolved, serializeContainer
          { encryptContainer P K salt iv with
            content := flipBit (encryptContainer P K salt iv).content i k })] outResolved =
        some (serializeContainer
          { encryptContainer P K salt iv with
            content := flipBit (encryptContainer P K salt iv).content i k }) := by
      simp [fsRead, List.lookup]
    rw [decryptEnvFile_container hK _ hfs hver hb.1 hb.2.1
      (byteOk_flipBit hb.2.2.1 hk) hb.2.2.2 hsne hine
      (flipBit_ne_nil (gcmCiphertext_ne_nil _ _ _)) (gcmTag_ne_nil _ _ _)]
    have hnone : gcmDecrypt (scryptModel K (encryptContainer P K salt iv).salt)
        (encryptContainer P K salt iv).iv
        (flipBit (encryptContainer P K salt iv).content i k)
        (encryptContainer P K salt iv).authTag = none :=
      gcmDecrypt_reject (by intro hcon; exact flipBit_ne hi hcon.2.2)
    simp only []
    rw [hnone]
  · intro i k hi hk
    have hfs : fsRead
        [(outResolved, serializeContainer
          { encryptContainer P K salt iv with
            authTag := flipBit (encryptContainer P K salt iv).authTag i k })] outResolved =
        some (serializeContainer
          { encryptContainer P K salt iv with
            authTag := flipBit (encryptContainer P K salt iv).authTag i k }) := by
      simp [fsRead, List.lookup]
    rw [decryptEnvFile_container hK _ hfs hver hb.1 hb.2.1 hb.2.2.1
      (byteOk_flipBit hb.2.2.2 hk) hsne hine
      (gcmCiphertext_ne_nil _ _ _) (flipBit_ne_nil (gcmTag_ne_nil _ _ _))]
    have hnone : gcmDecrypt (scryptModel K (encryptContainer P K salt iv).salt)
        (encryptContainer P K salt iv).iv
        (encryptContainer P K salt iv).content
        (flipBit (encryptContainer P K salt iv).authTag i k) = none := by
      unfold gcmDecrypt
      rw [if_neg]
      intro he
      exact flipBit_ne hi he.symm
    simp only []
    rw [hnone]
  · intro K' hK' hKK
    have hfs : fsRead
        [(outResolved, serializeContainer (encryptContainer P K salt iv))] outResolved =
        some (serializeContainer (encryptContainer P K salt iv)) := by
      simp [fsRead, List.lookup]
    rw [decryptEnvFile_container hK' _ hfs hver hb.1 hb.2.1 hb.2.2.1 hb.2.2.2 hsne hine
      (gcmCiphertext_ne_nil _ _ _) (gcmTag_ne_nil _ _ _)]
    have hnone : gcmDecrypt (scryptModel K' (encryptContainer P K salt iv).salt)
        (encryptContainer P K salt iv).iv
        (encryptContainer P K salt iv).content
        (encryptContainer P K salt iv).authTag = none :=
      gcmDecrypt_reject (by intro hcon; exact hKK (scryptModel_inj hcon.1).1)
    simp only []
    rw [hnone]

/-- Witness for C2 (amended): a concrete content bit flip, a concrete tag
bit flip, and a concrete wrong passphrase all yield the authentication
error. -/
theorem c2_tamper_reject_witness :
    (decryptEnvFile
        ⟨[("ENV_CRYPTO_KEY", "k")],
         [(outResolved, serializeContainer
            { encryptContainer "A=1" "k" [5] [7] with
              content := flipBit (encryptContainer "A=1" "k" [5] [7]).content 1 1 })],
         projCwd⟩ ".env.encrypted" "ENV_CRYPTO_KEY").result = .error .authError ∧
    (decryptEnvFile
        ⟨[("ENV_CRYPTO_KEY", "k")],
         [(outResolved, serializeContainer
            { encryptContainer "A=1" "k" [5] [7] with
              authTag := flipBit (encryptContainer "A=1" "k" [5] [7]).authTag 2 3 })],
         projCwd⟩ ".env.encrypted" "ENV_CRYPTO_KEY").result = .error .authError ∧
    (decryptEnvFile
        ⟨[("ENV_CRYPTO_KEY", "wrong")],
         [(outResolved, serializeContainer (encryptContainer "A=1" "k" [5] [7]))],
         projCwd⟩ ".env.encrypted" "ENV_CRYPTO_KEY").result = .error .authError :=
  ⟨(c2_tamper_reject "A=1" "k" [5] [7] (by decide) (by decide) (by decide) (by decide)
      (by decide) (by decide) (by decide)).1 1 1 (by decide) (by decide),
   (c2_tamper_reject "A=1" "k" [5] [7] (by decide) (by decide) (by decide) (by decide)
      (by decide) (by decide) (by decide)).2.1 2 3 (by decide) (by decide),
   (c2_tamper_reject "A=1" "k" [5] [7] (by decide) (by decide) (by decide) (by decide)
      (by decide) (by decide) (by decide)).2.2 "wrong" (by decide) (by decide)⟩

/-- Claim C3: the code does not wrap the container parse: a file that is
not parseable as the structured container format makes `decryptEnvFile`
propagate the raw `JSON.parse` error, which is not a typed engine error —
contradicting the claim and the function's own doc comment, which promise
a typed `MalformedContainer`-style engine error. -/
theorem c3_malformed_is_untyped :
    (decryptEnvFile
        ⟨[("ENV_CRYPTO_KEY", "k")], [(outResolved, "This is not valid JSON")], projCwd⟩
        ".env.encrypted" "ENV_CRYPTO_KEY").result = .error .jsonParseError ∧
    isTypedEngineError .jsonParseError = false := by
  constructor <;> decide

set_option maxRecDepth 40000 in
/-- Claim C7 as stated is false on the code: in `decryptEnvFile` the salt
buffer decoded from the container is never zeroed — this successful run
returns with the salt buffer still holding its original bytes. -/
theorem c7_counterexample :
    (decryptEnvFile
        ⟨[("ENV_CRYPTO_KEY", "k")],
         [(outResolved, serializeContainer (encryptContainer "A=1" "k" [5] [7]))],
         projCwd⟩ ".env.encrypted" "ENV_CRYPTO_KEY").saltBufferFinal = some [5] ∧
    ([5] : Bytes) ≠ clearBuffer [5] := by
  constructor <;> decide

/-- Claim C7 (amended): `encryptEnvFile` zeroes both the derived-key
buffer and the salt buffer on every exit path on which they were
allocated, and `decryptEnvFile` zeroes the derived-key buffer on every
exit path; the salt buffer decoded inside decrypt is not zeroed. -/
theorem c7_buffer_zeroing (w : World) (salt iv : Bytes) (sp op kv : String) :
    ((encryptEnvFile w salt iv sp op kv).keyBufferFinal.getD []).all (fun x => x == 0) = true ∧
    ((encryptEnvFile w salt iv sp op kv).saltBufferFinal.getD []).all (fun x => x == 0) = true ∧
    ((decryptEnvFile w sp kv).keyBufferFinal.getD []).all (fun x => x == 0) = true := by
  refine ⟨?_, ?_, ?_⟩
  · unfold encryptEnvFile
    repeat' split
    all_goals simp [clearBuffer]
  · unfold encryptEnvFile
    repeat' split
    all_goals simp [clearBuffer]
  · unfold decryptEnvFile
    repeat' split
    all_goals try simp [clearBuffer]
    all_goals repeat' split
    all_goals try simp [clearBuffer]

/-- Claim C8 as stated is false on the code: with a traversal output path,
the call does fail with `INVALID_PATH`, but only after the source file has
been read and the key derived — the claim requires neither to happen. -/
theorem c8_counterexample :
    (encryptEnvFile (mkWorld "k" "A=1") [5] [7] ".env" "../evil" "ENV_CRYPTO_KEY").result =
      .error invalidPathErr ∧
    Event.readFile srcResolved ∈
      (encryptEnvFile (mkWorld "k" "A=1") [5] [7] ".env" "../evil" "ENV_CRYPTO_KEY").trace ∧
    Event.deriveKey ∈
      (encryptEnvFile (mkWorld "k" "A=1") [5] [7] ".env" "../evil" "ENV_CRYPTO_KEY").trace := by
  refine ⟨?_, ?_, ?_⟩ <;> decide

/-- Claim C8 (amended): `encryptEnvFile` validates the source path before
reading it, but validates the output path only after reading the source
and deriving the key: with a readable source and an invalid output path
the call fails with the validator's error, writes nothing (the file store
is unchanged), and its trace shows the source read and the key
derivation. -/
theorem c8_output_validated_after_read (w : World) (salt iv : Bytes)
    (sp op kv K P vsp : String) (e : Thrown)
    (hkey : envGet w.envTable kv = some K) (hK : K ≠ "")
    (hsp : validatePath w.cwd sp = .ok vsp) (hread : fsRead w.fs vsp = some P)
    (hop : validatePath w.cwd op = .error e) :
    (encryptEnvFile w salt iv sp op kv).result = .error e ∧
    (encryptEnvFile w salt iv sp op kv).fs = w.fs ∧
    (encryptEnvFile w salt iv sp op kv).trace = [.readFile vsp, .deriveKey] := by
  unfold encryptEnvFile
  rw [hkey]
  simp only []
  rw [if_neg hK]
  rw [hsp]
  simp only []
  rw [hread]
  simp only []
  rw [hop]
  exact ⟨rfl, rfl, rfl⟩

/-- Witness for C8 (amended): concrete invalid output path `../evil`. -/
theorem c8_output_validated_after_read_witness :
    (encryptEnvFile (mkWorld "k" "A=1") [5] [7] ".env" "../evil" "ENV_CRYPTO_KEY").result =
      .error invalidPathErr ∧
    (encryptEnvFile (mkWorld "k" "A=1") [5] [7] ".env" "../evil" "ENV_CRYPTO_KEY").fs =
      (mkWorld "k" "A=1").fs ∧
    (encryptEnvFile (mkWorld "k" "A=1") [5] [7] ".env" "../evil" "ENV_CRYPTO_KEY").trace =
      [.readFile srcResolved, .deriveKey] :=
  c8_output_validated_after_read (mkWorld "k" "A=1") [5] [7] ".env" "../evil" "ENV_CRYPTO_KEY"
    "k" "A=1" srcResolved invalidPathErr (by decide) (by decide) (by decide) (by decide)
    (by decide)

/-- Claim C9: two `encryptEnvFile` invocations on the same plaintext and
passphrase that draw distinct salts and distinct ivs produce containers
whose `salt`, `iv` and `content` fields all differ, and decrypting either
container with the same passphrase yields the same parsed mapping. -/
theorem c9_fresh_randomness (P K : String) (s1 i1 s2 i2 : Bytes) (hK : K ≠ "")
    (hP : StrOk P) (hKb : StrOk K)
    (hs1 : ByteOk s1) (hi1 : ByteOk i1) (hs2 : ByteOk s2) (hi2 : ByteOk i2)
    (hs1n : s1 ≠ []) (hi1n : i1 ≠ []) (hs2n : s2 ≠ []) (hi2n : i2 ≠ [])
    (hss : s1 ≠ s2) (hii : i1 ≠ i2) :
    (encryptContainer P K s1 i1).salt ≠ (encryptContainer P K s2 i2).salt ∧
    (encryptContainer P K s1 i1).iv ≠ (encryptContainer P K s2 i2).iv ∧
    (encryptContainer P K s1 i1).content ≠ (encryptContainer P K s2 i2).content ∧
    (decryptEnvFile
        ⟨[("ENV_CRYPTO_KEY", K)],
         (encryptEnvFile (mkWorld K P) s1 i1 ".env" ".env.encrypted" "ENV_CRYPTO_KEY").fs,
         projCwd⟩ ".env.encrypted" "ENV_CRYPTO_KEY").result = .ok (parseEnv P) ∧
    (decryptEnvFile
        ⟨[("ENV_CRYPTO_KEY", K)],
         (encryptEnvFile (mkWorld K P) s2 i2 ".env" ".env.encrypted" "ENV_CRYPTO_KEY").fs,
         projCwd⟩ ".env.encrypted" "ENV_CRYPTO_KEY").result = .ok (parseEnv P) := by
  refine ⟨hss, hii, ?_,
    roundtrip_core P K s1 i1 hK hP hKb hs1 hi1 hs1n hi1n,
    roundtrip_core P K s2 i2 hK hP hKb hs2 hi2 hs2n hi2n⟩
  intro h
  have h' : gcmCiphertext (scryptModel K s1) i1 (strBytes P) =
      gcmCiphertext (scryptModel K s2) i2 (strBytes P) := h
  exact hii (encPrefix_append_inj h').2.1

/-- Witness for C9: distinct one-byte salts and ivs give containers with
distinct salt, iv and content, both decrypting to the same mapping. -/
theorem c9_fresh_randomness_witness :
    (encryptContainer "A=1" "k" [5] [7]).content ≠ (encryptContainer "A=1" "k" [6] [8]).content ∧
    (decryptEnvFile
        ⟨[("ENV_CRYPTO_KEY", "k")],
         (encryptEnvFile (mkWorld "k" "A=1") [5] [7] ".env" ".env.encrypted" "ENV_CRYPTO_KEY").fs,
         projCwd⟩ ".env.encrypted" "ENV_CRYPTO_KEY").result = .ok (parseEnv "A=1") ∧
    (decryptEnvFile
        ⟨[("ENV_CRYPTO_KEY", "k")],
         (encryptEnvFile (mkWorld "k" "A=1") [6] [8] ".env" ".env.encrypted" "ENV_CRYPTO_KEY").fs,
         projCwd⟩ ".env.encrypted" "ENV_CRYPTO_KEY").result = .ok (parseEnv "A=1") :=
  ⟨(c9_fresh_randomness "A=1" "k" [5] [7] [6] [8] (by decide) (by decide) (by decide)
      (by decide) (by decide) (by decide) (by decide) (by decide) (by decide) (by decide)
      (by decide) (by decide) (by decide)).2.2.1,
   (c9_fresh_randomness "A=1" "k" [5] [7] [6] [8] (by decide) (by decide) (by decide)
      (by decide) (by decide) (by decide) (by decide) (by decide) (by decide) (by decide)
      (by decide) (by decide) (by decide)).2.2.2.1,
   (c9_fresh_randomness "A=1" "k" [5] [7] [6] [8] (by decide) (by decide) (by decide)
      (by decide) (by decide) (by decide) (by decide) (by decide) (by decide) (by decide)
      (by decide) (by decide) (by decide)).2.2.2.2⟩

end EnvCrypto
